import Mathlib

/-!
Verification of the WSB-GPT simulated-trading core: the portfolio ledger
(cash + holdings) mutated by manual buys/sells (`MarketDataTab._execute_buy`,
`MarketDataTab.sell_stock`), the watchlist handlers, and the auto-trading
rule engine (`AutoTradingTab.check_auto_trade_rules`).

The embedding models:
  - Python dicts (`self.portfolio`) as insertion-ordered association lists;
  - Python floats (cash, prices) as exact rationals;
  - the per-symbol price fetch (`stock_fetcher.fetch` + close extraction) as
    a `FetchResult` for the manual paths (which distinguish empty data,
    missing close column and NaN close) and as an optional close per symbol
    for the rule engine (which treats all three the same and skips).
-/

set_option autoImplicit false

namespace WSBGPT

abbrev Symbol := String

/-- `self.portfolio`: a Python dict `symbol -> share count`, modelled as an
insertion-ordered association list. -/
abbrev Portfolio := List (Symbol × Nat)

/-- `portfolio.get(s, 0)`. -/
def lookupQty : Portfolio → Symbol → Nat
  | [], _ => 0
  | e :: rest, s => if e.1 = s then e.2 else lookupQty rest s

/-- `s in portfolio` (dict key membership). -/
def hasSym : Portfolio → Symbol → Bool
  | [], _ => false
  | e :: rest, s => if e.1 = s then true else hasSym rest s

/-- `portfolio[s] = q`: dict assignment — overwrite the entry in place if the
key exists, otherwise append (Python dicts keep insertion order). -/
def setQty : Portfolio → Symbol → Nat → Portfolio
  | [], s, q => [(s, q)]
  | e :: rest, s, q => if e.1 = s then (s, q) :: rest else e :: setQty rest s q

/-- `del portfolio[s]`: remove the entry for key `s`. -/
def delSym : Portfolio → Symbol → Portfolio
  | [], _ => []
  | e :: rest, s => if e.1 = s then rest else e :: delSym rest s

/-- `watchlist_symbols.remove(s)`: drop the first occurrence of `s`. -/
def removeSym : List Symbol → Symbol → List Symbol
  | [], _ => []
  | x :: rest, s => if x = s then rest else x :: removeSym rest s

/-- The mutable state shared by the tabs: `settings_tab.simulated_cash`,
`market_tab.portfolio` and `market_tab.watchlist_symbols`. -/
structure TradingState where
  simulated_cash : Rat
  portfolio : Portfolio
  watchlist_symbols : List Symbol
deriving DecidableEq

/-- Outcome of extracting the latest close for a symbol from the fetched
dataframe, as the manual trade paths see it: `data.empty`, the
`('Close', symbol)` column missing, a NaN last close, or a usable close. -/
inductive FetchResult where
  | empty
  | noCloseColumn
  | nanClose
  | close (p : Rat)
deriving DecidableEq

/-- The user-visible outcome of `MarketDataTab._execute_buy` (each failure
constructor is one of the source's QMessageBox branches). -/
inductive BuyOutcome where
  | emptySymbol
  | invalidTicker
  | invalidData
  | insufficientFunds
  | bought (price : Rat)
deriving DecidableEq

/-- The funds check and mutation block at the end of `_execute_buy`:
`total_cost = price * quantity`; when affordable, deduct the cost, add the
shares (`portfolio.get(symbol, 0) + quantity`) and append the symbol to the
watchlist when absent; otherwise warn `Insufficient Funds` and change
nothing. -/
def execute_buy_at (st : TradingState) (symbol : Symbol) (quantity : Nat)
    (price : Rat) : TradingState × BuyOutcome :=
  let total_cost := price * (quantity : Rat)
  if total_cost ≤ st.simulated_cash then
    ({ simulated_cash := st.simulated_cash - total_cost,
       portfolio := setQty st.portfolio symbol
         (lookupQty st.portfolio symbol + quantity),
       watchlist_symbols :=
         if symbol ∈ st.watchlist_symbols then st.watchlist_symbols
         else st.watchlist_symbols ++ [symbol] },
     .bought price)
  else (st, .insufficientFunds)

/-- `MarketDataTab._execute_buy`: empty symbol and empty/column-less fetch
results abort with a warning; a NaN close is defaulted to price `0.0` and the
buy proceeds; a usable close buys at that close. -/
def execute_buy (st : TradingState) (symbol : Symbol) (quantity : Nat)
    (fetch : FetchResult) : TradingState × BuyOutcome :=
  if symbol = "" then (st, .emptySymbol)
  else
    match fetch with
    | .empty => (st, .invalidTicker)
    | .noCloseColumn => (st, .invalidData)
    | .nanClose => execute_buy_at st symbol quantity 0
    | .close p => execute_buy_at st symbol quantity p

/-- The user-visible outcome of `MarketDataTab.sell_stock`. -/
inductive SellOutcome where
  | noShares
  | cancelled
  | insufficientShares
  | sold (price : Rat)
deriving DecidableEq

/-- The unit price `sell_stock` uses: `price = 0.0` unless a non-NaN close is
present in the fetched data (`price = float(last_close) if pd.notna(...)
else 0.0`, after initialising `price = 0.0`). -/
def sellPriceOf : FetchResult → Rat
  | .close p => p
  | _ => 0

/-- `MarketDataTab.sell_stock`: guarded by
`symbol and symbol in self.portfolio and self.portfolio[symbol] > 0` and the
dialog's `ok and quantity_to_sell > 0`; resolves the price via `sellPriceOf`
(0.0 on any fetch failure), re-checks share sufficiency, then decrements the
holding, credits `price * quantity`, and deletes the entry when it reaches 0. -/
def sell_stock (st : TradingState) (symbol : Symbol) (quantity : Nat)
    (fetch : FetchResult) : TradingState × SellOutcome :=
  if symbol ≠ "" ∧ hasSym st.portfolio symbol = true ∧
      0 < lookupQty st.portfolio symbol then
    if 0 < quantity then
      let price := sellPriceOf fetch
      if quantity ≤ lookupQty st.portfolio symbol then
        let pf1 := setQty st.portfolio symbol
          (lookupQty st.portfolio symbol - quantity)
        let pf2 := if lookupQty pf1 symbol = 0 then delSym pf1 symbol else pf1
        ({ st with simulated_cash := st.simulated_cash + price * (quantity : Rat),
                   portfolio := pf2 },
         .sold price)
      else (st, .insufficientShares)
    else (st, .cancelled)
  else (st, .noShares)

/-- The three values of the rule-type combo box. -/
inductive RuleType where
  | buyLimit
  | sellStopLoss
  | sellTakeProfit
deriving DecidableEq

/-- One auto-trading rule dict:
`{"symbol": ..., "type": ..., "target_price": ..., "quantity": ...}`. -/
structure Rule where
  symbol : Symbol
  ruleType : RuleType
  target_price : Rat
  quantity : Nat
deriving DecidableEq

/-- The closes the rule engine sees on one tick: one optional close per
symbol (`none` covers empty fetch results, a missing close column, a NaN
close, and a fetch exception — all of which make the engine skip the rule). -/
abbrev QuoteBook := List (Symbol × Rat)

/-- Look up the tick's close for a symbol. -/
def closeOf : QuoteBook → Symbol → Option Rat
  | [], _ => none
  | e :: rest, s => if e.1 = s then some e.2 else closeOf rest s

/-- The sell block shared by the two sell-rule branches of
`check_auto_trade_rules`: `portfolio[symbol] = portfolio.get(symbol, 0) -
quantity`, credit `current_price * quantity`, and delete the entry when it
hits 0. -/
def autoSell (st : TradingState) (symbol : Symbol) (quantity : Nat)
    (price : Rat) : TradingState :=
  let pf1 := setQty st.portfolio symbol (lookupQty st.portfolio symbol - quantity)
  let pf2 := if lookupQty pf1 symbol = 0 then delSym pf1 symbol else pf1
  { st with simulated_cash := st.simulated_cash + price * (quantity : Rat),
            portfolio := pf2 }

/-- One iteration of the rule loop in `check_auto_trade_rules` for one rule:
returns the updated state and the `trade_executed` flag. No usable close
skips the rule; `Buy (Limit)` buys when `current_price <= target_price` and
funds suffice; the sell kinds sell when their price predicate holds and
`portfolio.get(symbol, 0) >= quantity`; every other case leaves the state
untouched and the flag `False`. -/
def processRule (quotes : QuoteBook) (st : TradingState) (rule : Rule) :
    TradingState × Bool :=
  match closeOf quotes rule.symbol with
  | none => (st, false)
  | some current_price =>
    match rule.ruleType with
    | .buyLimit =>
      if current_price ≤ rule.target_price then
        let total_cost := current_price * (rule.quantity : Rat)
        if total_cost ≤ st.simulated_cash then
          ({ st with
              simulated_cash := st.simulated_cash - total_cost,
              portfolio := setQty st.portfolio rule.symbol
                (lookupQty st.portfolio rule.symbol + rule.quantity) },
           true)
        else (st, false)
      else (st, false)
    | .sellStopLoss =>
      if current_price ≤ rule.target_price ∧
          rule.quantity ≤ lookupQty st.portfolio rule.symbol then
        (autoSell st rule.symbol rule.quantity current_price, true)
      else (st, false)
    | .sellTakeProfit =>
      if rule.target_price ≤ current_price ∧
          rule.quantity ≤ lookupQty st.portfolio rule.symbol then
        (autoSell st rule.symbol rule.quantity current_price, true)
      else (st, false)

/-- The evaluation loop of `check_auto_trade_rules`: fold over the rules in
list order, threading the trading state and recording each rule's
`trade_executed` flag. -/
def evalPass (quotes : QuoteBook) : TradingState → List Rule →
    TradingState × List Bool
  | st, [] => (st, [])
  | st, r :: rs =>
    let res := processRule quotes st r
    let rest := evalPass quotes res.1 rs
    (rest.1, res.2 :: rest.2)

/-- `executed_rules_indices`: the loop indices whose trade executed, collected
in ascending loop order. -/
def executedIndices (flags : List Bool) : List Nat :=
  (List.range flags.length).filter (fun i => flags.getD i false)

/-- `for index in sorted(executed_rules_indices, reverse=True): del
self.auto_trade_rules[index]` — the indices are collected in ascending loop
order, so the descending sort is list reversal; deletion is `eraseIdx`. -/
def removeExecuted (rules : List Rule) (idxs : List Nat) : List Rule :=
  idxs.reverse.foldl (fun rs i => rs.eraseIdx i) rules

/-- The whole of `check_auto_trade_rules` on one timer tick: run the
evaluation pass over the current rule list, then delete the executed rules
in one batch. Returns the final trading state and the surviving rule list. -/
def check_auto_trade_rules (quotes : QuoteBook) (st : TradingState)
    (rules : List Rule) : TradingState × List Rule :=
  let pass := evalPass quotes st rules
  (pass.1, removeExecuted rules (executedIndices pass.2))

/-- `MarketDataTab.remove_from_watchlist` can only remove the symbol or
silently do nothing; the source contains no refusal dialog (the
`refusedWithMessage` constructor records the QMessageBox vocabulary such a
refusal would use — this handler never produces it). -/
inductive RemoveOutcome where
  | removed
  | refusedWithMessage (msg : String)
  | silentNoOp
deriving DecidableEq

/-- `MarketDataTab.remove_from_watchlist`: removes the symbol only when it is
on the watchlist and not in the portfolio; in every other case it falls
through with no mutation and no message. -/
def remove_from_watchlist (st : TradingState) (symbol : Symbol) :
    TradingState × RemoveOutcome :=
  if symbol ∈ st.watchlist_symbols ∧ hasSym st.portfolio symbol = false then
    ({ st with watchlist_symbols := removeSym st.watchlist_symbols symbol },
     .removed)
  else (st, .silentNoOp)

/-- `MarketDataTab._clear_watchlist_handler`: compute the watchlist symbols
not in the portfolio, then `watchlist_symbols.remove(...)` each of them. It
shows no message for the symbols it keeps. -/
def clear_watchlist_handler (st : TradingState) : TradingState :=
  let symbols_to_remove :=
    st.watchlist_symbols.filter (fun s => ! hasSym st.portfolio s)
  { st with watchlist_symbols :=
      symbols_to_remove.foldl removeSym st.watchlist_symbols }

/-- A ledger-mutating operation: a manual buy, a manual sell, or one full
auto-trading tick over a rule list. -/
inductive TradeOp where
  | buyOp (symbol : Symbol) (quantity : Nat) (fetch : FetchResult)
  | sellOp (symbol : Symbol) (quantity : Nat) (fetch : FetchResult)
  | tickOp (quotes : QuoteBook) (rules : List Rule)
deriving DecidableEq

/-- Apply one operation to the trading state. -/
def applyOp (st : TradingState) : TradeOp → TradingState
  | .buyOp s q f => (execute_buy st s q f).1
  | .sellOp s q f => (sell_stock st s q f).1
  | .tickOp quotes rules => (check_auto_trade_rules quotes st rules).1

/-- The input domain the UI guarantees: quantities come from spin boxes and
dialogs with minimum 1 (`setRange(1, 10000)`, `QInputDialog.getInt(..., 1,
1, ..., 1)`), and market closes are nonnegative prices. -/
def OpValid : TradeOp → Prop
  | .buyOp _ q _ => 0 < q
  | .sellOp _ q f => 0 < q ∧ 0 ≤ sellPriceOf f
  | .tickOp quotes rules =>
      (∀ e ∈ quotes, 0 ≤ e.2) ∧ (∀ r ∈ rules, 0 < r.quantity)

/-- The ledger invariant of the spec: cash is nonnegative and every stored
holding is strictly positive. -/
def Invariant (st : TradingState) : Prop :=
  0 ≤ st.simulated_cash ∧ ∀ e ∈ st.portfolio, 0 < e.2

/-- Spec-side trigger predicate, transcribed from the spec's words:
`BuyLimit` triggers when `close ≤ target_price`, `SellStopLoss` when
`close ≤ target_price`, `SellTakeProfit` when `close ≥ target_price`. -/
def triggerPred (rule : Rule) (close : Rat) : Prop :=
  match rule.ruleType with
  | .buyLimit => close ≤ rule.target_price
  | .sellStopLoss => close ≤ rule.target_price
  | .sellTakeProfit => rule.target_price ≤ close

instance (rule : Rule) (close : Rat) : Decidable (triggerPred rule close) := by
  unfold triggerPred
  cases rule.ruleType <;> infer_instance

/-- Spec-side description of the post-tick rule list: drop exactly the rules
whose flag is `true`, keeping the rest in order. -/
def survivors : List Rule → List Bool → List Rule
  | [], _ => []
  | rs, [] => rs
  | r :: rs, f :: fs => if f then survivors rs fs else r :: survivors rs fs

/-! ### Association-list lemmas -/

theorem lookupQty_setQty_self (p : Portfolio) (s : Symbol) (q : Nat) :
    lookupQty (setQty p s q) s = q := by
  induction p with
  | nil => simp [setQty, lookupQty]
  | cons e rest ih =>
    by_cases h : e.1 = s
    · simp [setQty, lookupQty, h]
    · simp [setQty, lookupQty, h, ih]

theorem hasSym_setQty_self (p : Portfolio) (s : Symbol) (q : Nat) :
    hasSym (setQty p s q) s = true := by
  induction p with
  | nil => simp [setQty, hasSym]
  | cons e rest ih =>
    by_cases h : e.1 = s
    · simp [setQty, hasSym, h]
    · simp [setQty, hasSym, h, ih]

theorem mem_setQty {p : Portfolio} {s : Symbol} {q : Nat} {e : Symbol × Nat}
    (he : e ∈ setQty p s q) : e = (s, q) ∨ e ∈ p := by
  induction p with
  | nil => simpa [setQty] using he
  | cons x rest ih =>
    by_cases h : x.1 = s
    · rcases (by simpa [setQty, h] using he : e = (s, q) ∨ e ∈ rest) with h1 | h1
      · exact Or.inl h1
      · exact Or.inr (List.mem_cons_of_mem _ h1)
    · rcases (by simpa [setQty, h] using he : e = x ∨ e ∈ setQty rest s q) with h1 | h1
      · exact Or.inr (h1 ▸ List.mem_cons_self _ _)
      · rcases ih h1 with h2 | h2
        · exact Or.inl h2
        · exact Or.inr (List.mem_cons_of_mem _ h2)

theorem mem_delSym {p : Portfolio} {s : Symbol} {e : Symbol × Nat}
    (he : e ∈ delSym p s) : e ∈ p := by
  induction p with
  | nil => simp [delSym] at he
  | cons x rest ih =>
    by_cases h : x.1 = s
    · exact List.mem_cons_of_mem _ (by simpa [delSym, h] using he)
    · rcases (by simpa [delSym, h] using he : e = x ∨ e ∈ delSym rest s) with h1 | h1
      · exact h1 ▸ List.mem_cons_self _ _
      · exact List.mem_cons_of_mem _ (ih h1)

theorem delSym_setQty (p : Portfolio) (s : Symbol) (q : Nat) :
    delSym (setQty p s q) s = delSym p s := by
  induction p with
  | nil => simp [setQty, delSym]
  | cons x rest ih =>
    by_cases h : x.1 = s
    · simp [setQty, delSym, h]
    · simp [setQty, delSym, h, ih]

theorem closeOf_exists_mem {quotes : QuoteBook} {s : Symbol} {p : Rat}
    (h : closeOf quotes s = some p) : ∃ e ∈ quotes, e.2 = p := by
  induction quotes with
  | nil => simp [closeOf] at h
  | cons x rest ih =>
    by_cases hx : x.1 = s
    · refine ⟨x, List.mem_cons_self _ _, ?_⟩
      have := h
      simp [closeOf, hx] at this
      exact this
    · obtain ⟨e, he, hep⟩ := ih (by simpa [closeOf, hx] using h)
      exact ⟨e, List.mem_cons_of_mem _ he, hep⟩

/-! ### Tick-machinery lemmas -/

theorem evalPass_length (quotes : QuoteBook) (st : TradingState)
    (rules : List Rule) : ((evalPass quotes st rules).2).length = rules.length := by
  induction rules generalizing st with
  | nil => simp [evalPass]
  | cons r rs ih => simp [evalPass, ih]

theorem evalPass_fst (quotes : QuoteBook) (st : TradingState)
    (rules : List Rule) :
    (evalPass quotes st rules).1 =
      rules.foldl (fun s r => (processRule quotes s r).1) st := by
  induction rules generalizing st with
  | nil => simp [evalPass]
  | cons r rs ih => simp [evalPass, ih]

theorem evalPass_flag (quotes : QuoteBook) (st : TradingState)
    (rules : List Rule) (i : Nat) (h : i < rules.length) :
    ((evalPass quotes st rules).2).getD i false =
      (processRule quotes ((evalPass quotes st (rules.take i)).1)
        (rules.get ⟨i, h⟩)).2 := by
  induction rules generalizing st i with
  | nil => simp at h
  | cons r rs ih =>
    cases i with
    | zero => simp [evalPass]
    | succ j =>
      have hj : j < rs.length := Nat.lt_of_succ_lt_succ h
      simp only [evalPass, List.take_succ_cons, List.getD_cons_succ,
        List.get_cons_succ]
      exact ih _ j hj

theorem executedIndices_nil : executedIndices [] = [] := by
  simp [executedIndices]

theorem executedIndices_cons (f : Bool) (fs : List Bool) :
    executedIndices (f :: fs) =
      (if f then [0] else []) ++ (executedIndices fs).map Nat.succ := by
  unfold executedIndices
  rw [List.length_cons, List.range_succ_eq_map, List.filter_cons]
  have hpred : ((fun i => (f :: fs).getD i false) ∘ Nat.succ) =
      (fun i => fs.getD i false) := by
    funext i
    simp [Function.comp]
  rw [List.filter_map, hpred]
  cases f <;> simp

theorem foldl_eraseIdx_map_succ (is : List Nat) (r : Rule) (rs : List Rule) :
    (is.map Nat.succ).foldl (fun l i => l.eraseIdx i) (r :: rs) =
      r :: is.foldl (fun l i => l.eraseIdx i) rs := by
  induction is generalizing rs with
  | nil => simp
  | cons i is ih => simp [List.eraseIdx, ih]

theorem removeExecuted_eq_survivors (rules : List Rule) (flags : List Bool)
    (h : flags.length = rules.length) :
    removeExecuted rules (executedIndices flags) = survivors rules flags := by
  induction flags generalizing rules with
  | nil =>
    cases rules with
    | nil => simp [removeExecuted, executedIndices_nil, survivors]
    | cons r rs => simp at h
  | cons f fs ih =>
    cases rules with
    | nil => simp at h
    | cons r rs =>
      have hlen : fs.length = rs.length := by simpa using h
      unfold removeExecuted
      rw [executedIndices_cons, List.reverse_append, List.foldl_append,
        ← List.map_reverse, foldl_eraseIdx_map_succ]
      rw [show (executedIndices fs).reverse.foldl (fun l i => l.eraseIdx i) rs =
            removeExecuted rs (executedIndices fs) from rfl, ih rs hlen]
      cases f with
      | true => simp [survivors, List.eraseIdx]
      | false => simp [survivors]

theorem survivors_sublist (rules : List Rule) (flags : List Bool) :
    (survivors rules flags).Sublist rules := by
  induction rules generalizing flags with
  | nil => simp [survivors]
  | cons r rs ih =>
    cases flags with
    | nil => simp [survivors]
    | cons f fs =>
      cases f with
      | true =>
        simpa [survivors] using List.Sublist.cons r (ih fs)
      | false =>
        simpa [survivors] using List.Sublist.cons₂ r (ih fs)

theorem mem_survivors_of_flag_false (rules : List Rule) (flags : List Bool)
    (i : Nat) (h : i < rules.length) (hf : flags.getD i false = false) :
    rules.get ⟨i, h⟩ ∈ survivors rules flags := by
  induction rules generalizing flags i with
  | nil => simp at h
  | cons r rs ih =>
    cases flags with
    | nil => simp [survivors]
    | cons f fs =>
      cases i with
      | zero =>
        simp only [List.getD_cons_zero] at hf
        simp [survivors, hf]
      | succ j =>
        have hj : j < rs.length := Nat.lt_of_succ_lt_succ h
        have hmem := ih fs j hj (by simpa using hf)
        cases f with
        | true => simpa [survivors] using hmem
        | false => simpa [survivors] using List.mem_cons_of_mem r hmem

theorem mem_survivors_of_always_false {quotes : QuoteBook} {r : Rule}
    (hr : ∀ s, (processRule quotes s r).2 = false) (rules : List Rule)
    (st : TradingState) (hmem : r ∈ rules) :
    r ∈ survivors rules (evalPass quotes st rules).2 := by
  induction rules generalizing st with
  | nil => simp at hmem
  | cons x xs ih =>
    rcases List.mem_cons.mp hmem with hx | hx
    · subst hx
      simp [evalPass, survivors, hr st]
    · have := ih ((processRule quotes st x).1) hx
      simp only [evalPass, survivors]
      cases hflag : (processRule quotes st x).2 with
      | true => simpa [survivors] using this
      | false => simpa [survivors] using List.mem_cons_of_mem x this

/-! ### Invariant preservation -/

theorem buy_portfolio_pos {p : Portfolio} {s : Symbol} {q : Nat}
    (hq : 0 < q) (hpos : ∀ e ∈ p, 0 < e.2) (e : Symbol × Nat)
    (he : e ∈ setQty p s (lookupQty p s + q)) : 0 < e.2 := by
  rcases mem_setQty he with h1 | h1
  · subst h1
    exact Nat.lt_of_lt_of_le hq (Nat.le_add_left _ _)
  · exact hpos e h1

theorem sell_portfolio_pos {p : Portfolio} {s : Symbol} {q : Nat}
    (hpos : ∀ e ∈ p, 0 < e.2) (e : Symbol × Nat)
    (he : e ∈ (if lookupQty (setQty p s (lookupQty p s - q)) s = 0
               then delSym (setQty p s (lookupQty p s - q)) s
               else setQty p s (lookupQty p s - q))) : 0 < e.2 := by
  rw [lookupQty_setQty_self] at he
  by_cases h0 : lookupQty p s - q = 0
  · rw [if_pos h0, delSym_setQty] at he
    exact hpos e (mem_delSym he)
  · rw [if_neg h0] at he
    rcases mem_setQty he with h1 | h1
    · subst h1
      exact Nat.pos_of_ne_zero h0
    · exact hpos e h1

theorem invariant_execute_buy_at (st : TradingState) (s : Symbol) (q : Nat)
    (p : Rat) (hq : 0 < q) (hinv : Invariant st) :
    Invariant (execute_buy_at st s q p).1 := by
  unfold execute_buy_at
  by_cases hc : p * (q : Rat) ≤ st.simulated_cash
  · rw [if_pos hc]
    exact ⟨sub_nonneg.mpr hc, fun e he => buy_portfolio_pos hq hinv.2 e he⟩
  · rw [if_neg hc]
    exact hinv

theorem invariant_execute_buy (st : TradingState) (s : Symbol) (q : Nat)
    (f : FetchResult) (hq : 0 < q) (hinv : Invariant st) :
    Invariant (execute_buy st s q f).1 := by
  unfold execute_buy
  by_cases hs : s = ""
  · rw [if_pos hs]
    exact hinv
  · rw [if_neg hs]
    cases f with
    | empty => exact hinv
    | noCloseColumn => exact hinv
    | nanClose => exact invariant_execute_buy_at st s q 0 hq hinv
    | close p => exact invariant_execute_buy_at st s q p hq hinv

theorem invariant_sell_stock (st : TradingState) (s : Symbol) (q : Nat)
    (f : FetchResult) (hp : 0 ≤ sellPriceOf f) (hinv : Invariant st) :
    Invariant (sell_stock st s q f).1 := by
  unfold sell_stock
  split
  · split
    · split
      · exact ⟨add_nonneg hinv.1 (mul_nonneg hp (Nat.cast_nonneg q)),
          fun e he => sell_portfolio_pos hinv.2 e he⟩
      · exact hinv
    · exact hinv
  · exact hinv

theorem invariant_autoSell (st : TradingState) (s : Symbol) (q : Nat)
    (price : Rat) (hp : 0 ≤ price) (hinv : Invariant st) :
    Invariant (autoSell st s q price) := by
  unfold autoSell
  exact ⟨add_nonneg hinv.1 (mul_nonneg hp (Nat.cast_nonneg q)),
    fun e he => sell_portfolio_pos hinv.2 e he⟩

theorem invariant_processRule (quotes : QuoteBook) (st : TradingState)
    (rule : Rule) (hq : 0 < rule.quantity) (hqb : ∀ e ∈ quotes, 0 ≤ e.2)
    (hinv : Invariant st) : Invariant (processRule quotes st rule).1 := by
  unfold processRule
  cases hclose : closeOf quotes rule.symbol with
  | none => exact hinv
  | some price =>
    have hp : 0 ≤ price := by
      obtain ⟨e, he, hep⟩ := closeOf_exists_mem hclose
      exact hep ▸ hqb e he
    dsimp only
    cases rule.ruleType with
    | buyLimit =>
      dsimp only
      split
      · split
        next hc =>
          exact ⟨sub_nonneg.mpr hc, fun e he => buy_portfolio_pos hq hinv.2 e he⟩
        next hc => exact hinv
      · exact hinv
    | sellStopLoss =>
      dsimp only
      split
      · exact invariant_autoSell st rule.symbol rule.quantity price hp hinv
      · exact hinv
    | sellTakeProfit =>
      dsimp only
      split
      · exact invariant_autoSell st rule.symbol rule.quantity price hp hinv
      · exact hinv

theorem invariant_evalPass (quotes : QuoteBook) (rules : List Rule)
    (hqb : ∀ e ∈ quotes, 0 ≤ e.2) :
    ∀ st : TradingState, (∀ r ∈ rules, 0 < r.quantity) → Invariant st →
      Invariant (evalPass quotes st rules).1 := by
  induction rules with
  | nil =>
    intro st _ hinv
    simpa [evalPass] using hinv
  | cons r rs ih =>
    intro st hrq hinv
    simp only [evalPass]
    exact ih _ (fun x hx => hrq x (List.mem_cons_of_mem _ hx))
      (invariant_processRule quotes st r (hrq r (List.mem_cons_self _ _)) hqb hinv)

theorem invariant_applyOp (st : TradingState) (op : TradeOp)
    (hop : OpValid op) (hinv : Invariant st) : Invariant (applyOp st op) := by
  cases op with
  | buyOp s q f => exact invariant_execute_buy st s q f hop hinv
  | sellOp s q f => exact invariant_sell_stock st s q f hop.2 hinv
  | tickOp quotes rules =>
    exact invariant_evalPass quotes rules hop.1 st hop.2 hinv

instance decOpValid : DecidablePred OpValid := fun op => by
  cases op <;> unfold OpValid <;> infer_instance

instance decInvariant (st : TradingState) : Decidable (Invariant st) := by
  unfold Invariant
  infer_instance

/-! ### More tick and watchlist helpers -/

theorem tick_rules_eq_survivors (quotes : QuoteBook) (st : TradingState)
    (rules : List Rule) :
    (check_auto_trade_rules quotes st rules).2 =
      survivors rules (evalPass quotes st rules).2 := by
  unfold check_auto_trade_rules
  exact removeExecuted_eq_survivors rules _ (evalPass_length quotes st rules)

theorem mem_tick_of_always_false {quotes : QuoteBook} {r : Rule}
    (hr : ∀ s, (processRule quotes s r).2 = false) (rules : List Rule)
    (st : TradingState) (hmem : r ∈ rules) :
    r ∈ (check_auto_trade_rules quotes st rules).2 := by
  rw [tick_rules_eq_survivors]
  exact mem_survivors_of_always_false hr rules st hmem

theorem processRule_false_of_not_trigger {quotes : QuoteBook} {r : Rule}
    {price : Rat} (hclose : closeOf quotes r.symbol = some price)
    (hnp : ¬ triggerPred r price) (s : TradingState) :
    processRule quotes s r = (s, false) := by
  obtain ⟨sym, rt, tp, qty⟩ := r
  unfold triggerPred at hnp
  unfold processRule
  rw [hclose]
  cases rt with
  | buyLimit =>
    simp only at hnp
    exact if_neg hnp
  | sellStopLoss =>
    simp only at hnp
    exact if_neg (fun hc => hnp hc.1)
  | sellTakeProfit =>
    simp only at hnp
    exact if_neg (fun hc => hnp hc.1)

theorem watchlist_processRule (quotes : QuoteBook) (st : TradingState)
    (r : Rule) :
    (processRule quotes st r).1.watchlist_symbols = st.watchlist_symbols := by
  obtain ⟨sym, rt, tp, qty⟩ := r
  unfold processRule autoSell
  cases closeOf quotes sym with
  | none => rfl
  | some price =>
    cases rt with
    | buyLimit =>
      dsimp only
      split
      · split <;> rfl
      · rfl
    | sellStopLoss =>
      dsimp only
      split <;> rfl
    | sellTakeProfit =>
      dsimp only
      split <;> rfl

theorem watchlist_evalPass (quotes : QuoteBook) (rules : List Rule) :
    ∀ st : TradingState,
      (evalPass quotes st rules).1.watchlist_symbols = st.watchlist_symbols := by
  induction rules with
  | nil =>
    intro st
    rfl
  | cons r rs ih =>
    intro st
    simp only [evalPass]
    rw [ih, watchlist_processRule]

theorem mem_removeSym_of_ne {l : List Symbol} {s x : Symbol}
    (hmem : s ∈ l) (hne : x ≠ s) : s ∈ removeSym l x := by
  induction l with
  | nil => simp at hmem
  | cons y rest ih =>
    rcases List.mem_cons.mp hmem with hy | hy
    · subst hy
      simp only [removeSym]
      rw [if_neg (fun h => hne h.symm)]
      exact List.mem_cons_self _ _
    · by_cases hx : y = x
      · simpa [removeSym, hx] using hy
      · simpa [removeSym, hx] using Or.inr (ih hy)

theorem mem_foldl_removeSym {s : Symbol} (rs : List Symbol) :
    ∀ l : List Symbol, s ∈ l → (∀ x ∈ rs, x ≠ s) →
      s ∈ rs.foldl removeSym l := by
  induction rs with
  | nil =>
    intro l hmem _
    simpa using hmem
  | cons x xs ih =>
    intro l hmem hne
    simp only [List.foldl_cons]
    exact ih _ (mem_removeSym_of_ne hmem (hne x (List.mem_cons_self _ _)))
      (fun y hy => hne y (List.mem_cons_of_mem _ hy))

/-! ### Claim theorems -/

/-- C2: starting from a state with cash ≥ 0 and every stored holding > 0,
every sequence of ledger operations — manual buys, manual sells and whole
auto-trading ticks, with the UI-guaranteed positive quantities and
nonnegative market closes — keeps cash ≥ 0 and every symbol present in the
portfolio at quantity > 0: a holding that reaches exactly 0 is deleted from
the map, never stored at 0. -/
theorem C2_ledger_invariant (ops : List TradeOp) :
    ∀ st : TradingState, (∀ op ∈ ops, OpValid op) → Invariant st →
      Invariant (ops.foldl applyOp st) := by
  induction ops with
  | nil =>
    intro st _ hinv
    simpa using hinv
  | cons op rest ih =>
    intro st hops hinv
    simp only [List.foldl_cons]
    exact ih _ (fun x hx => hops x (List.mem_cons_of_mem _ hx))
      (invariant_applyOp st op (hops op (List.mem_cons_self _ _)) hinv)

/-- Witness for C2: a concrete buy / sell / tick run from cash 100. -/
theorem C2_ledger_invariant_witness :
    Invariant
      (([TradeOp.buyOp "AAPL" 2 (FetchResult.close 10),
         TradeOp.sellOp "AAPL" 1 (FetchResult.close 12),
         TradeOp.tickOp [("AAPL", 9)]
           [⟨"AAPL", RuleType.sellStopLoss, 9, 1⟩]]).foldl
        applyOp ⟨100, [], []⟩) :=
  C2_ledger_invariant _ ⟨100, [], []⟩
    (by
      intro op hop
      fin_cases hop <;> simp [OpValid, sellPriceOf])
    ⟨by norm_num, by simp⟩

/-- C3: a buy of quantity `q` at an available close `p` fails with the
insufficient-funds warning and mutates nothing when `cash < p*q`, and
otherwise debits exactly `p*q` and grows the symbol's holding by exactly `q`
(creating the entry if absent) — on both the manual `_execute_buy` path and
the rule engine's `Buy (Limit)` path. -/
theorem C3_buy_semantics (st : TradingState) (s : Symbol) (q : Nat)
    (p t : Rat) (quotes : QuoteBook) (hs : s ≠ "")
    (hclose : closeOf quotes s = some p) (hpred : p ≤ t) :
    (st.simulated_cash < p * (q : Rat) →
        execute_buy st s q (.close p) = (st, .insufficientFunds) ∧
        processRule quotes st ⟨s, .buyLimit, t, q⟩ = (st, false)) ∧
    (p * (q : Rat) ≤ st.simulated_cash →
        ((execute_buy st s q (.close p)).2 = .bought p ∧
         (execute_buy st s q (.close p)).1.simulated_cash
            = st.simulated_cash - p * (q : Rat) ∧
         lookupQty (execute_buy st s q (.close p)).1.portfolio s
            = lookupQty st.portfolio s + q) ∧
        ((processRule quotes st ⟨s, .buyLimit, t, q⟩).2 = true ∧
         (processRule quotes st ⟨s, .buyLimit, t, q⟩).1.simulated_cash
            = st.simulated_cash - p * (q : Rat) ∧
         lookupQty (processRule quotes st ⟨s, .buyLimit, t, q⟩).1.portfolio s
            = lookupQty st.portfolio s + q)) := by
  constructor
  · intro hlt
    have hc : ¬ p * (q : Rat) ≤ st.simulated_cash := not_le.mpr hlt
    constructor
    · simp [execute_buy, execute_buy_at, hs, hc]
    · simp [processRule, hclose, hpred, hc]
  · intro hle
    refine ⟨⟨?_, ?_, ?_⟩, ?_, ?_, ?_⟩ <;>
      simp [execute_buy, execute_buy_at, processRule, hclose, hpred, hle, hs,
        lookupQty_setQty_self]

/-- Witness for C3: both paths succeed buying 2 shares at close 10 with
cash 100, and both reject with cash 5. -/
theorem C3_buy_semantics_witness :
    (execute_buy ⟨100, [], []⟩ "AAPL" 2 (.close 10)).2 = .bought 10 ∧
    (processRule [("AAPL", 10)] ⟨100, [], []⟩ ⟨"AAPL", .buyLimit, 11, 2⟩).2
        = true ∧
    execute_buy ⟨5, [], []⟩ "AAPL" 2 (.close 10)
        = (⟨5, [], []⟩, .insufficientFunds) :=
  ⟨((C3_buy_semantics ⟨100, [], []⟩ "AAPL" 2 10 11 [("AAPL", 10)]
      (by decide) (by simp [closeOf]) (by norm_num)).2 (by norm_num)).1.1,
   (((C3_buy_semantics ⟨100, [], []⟩ "AAPL" 2 10 11 [("AAPL", 10)]
      (by decide) (by simp [closeOf]) (by norm_num)).2 (by norm_num)).2).1,
   ((C3_buy_semantics ⟨5, [], []⟩ "AAPL" 2 10 11 [("AAPL", 10)]
      (by decide) (by simp [closeOf]) (by norm_num)).1 (by norm_num)).1⟩

/-- C8: for every quantity q > 0 and close p ≥ 0, a successful manual buy of
q shares at unit price p immediately followed by a manual sell of q shares of
the same symbol at the same unit price restores cash to exactly its pre-buy
value — no hidden fees. -/
theorem C8_conservation (st : TradingState) (s : Symbol) (q : Nat) (p : Rat)
    (hs : s ≠ "") (hq : 0 < q) (hp : 0 ≤ p)
    (hfunds : p * (q : Rat) ≤ st.simulated_cash) :
    ((sell_stock (execute_buy st s q (.close p)).1 s q
        (.close p)).1).simulated_cash = st.simulated_cash := by
  have hbuy : (execute_buy st s q (.close p)).1 =
      { simulated_cash := st.simulated_cash - p * (q : Rat),
        portfolio := setQty st.portfolio s (lookupQty st.portfolio s + q),
        watchlist_symbols :=
          if s ∈ st.watchlist_symbols then st.watchlist_symbols
          else st.watchlist_symbols ++ [s] } := by
    simp [execute_buy, execute_buy_at, hs, hfunds]
  rw [hbuy]
  have hlook : lookupQty (setQty st.portfolio s (lookupQty st.portfolio s + q)) s
      = lookupQty st.portfolio s + q := lookupQty_setQty_self _ _ _
  have hhas : hasSym (setQty st.portfolio s (lookupQty st.portfolio s + q)) s
      = true := hasSym_setQty_self _ _ _
  have hpos : 0 < lookupQty st.portfolio s + q := Nat.lt_of_lt_of_le hq
    (Nat.le_add_left _ _)
  have hle : q ≤ lookupQty st.portfolio s + q := Nat.le_add_left _ _
  simp only [sell_stock, hlook, hhas, hpos, hle, hs, ne_eq,
    not_false_iff, true_and, and_true, if_pos, hq, sellPriceOf]
  ring

/-- Witness for C8: buy then sell 3 shares of AAPL at close 7 from cash 50. -/
theorem C8_conservation_witness :
    ((sell_stock (execute_buy ⟨50, [], []⟩ "AAPL" 3 (.close 7)).1 "AAPL" 3
        (.close 7)).1).simulated_cash = 50 :=
  C8_conservation ⟨50, [], []⟩ "AAPL" 3 7 (by decide) (by decide)
    (by norm_num) (by norm_num)

/-- C4: with an available close, a Buy (Limit) rule triggers exactly when
close ≤ target price, a Sell (Stop Loss) rule exactly when close ≤ target
price, and a Sell (Take Profit) rule exactly when close ≥ target price: a
consumed flag or any state change implies the predicate, and when the
predicate is false the evaluation returns the state unchanged, unconsumed,
and the rule survives the tick. -/
theorem C4_trigger_predicates (quotes : QuoteBook) (st : TradingState)
    (r : Rule) (price : Rat)
    (hclose : closeOf quotes r.symbol = some price) :
    ((processRule quotes st r).2 = true → triggerPred r price) ∧
    ((processRule quotes st r).1 ≠ st → triggerPred r price) ∧
    (¬ triggerPred r price → processRule quotes st r = (st, false)) ∧
    (¬ triggerPred r price → ∀ (rules : List Rule) (st0 : TradingState),
        r ∈ rules → r ∈ (check_auto_trade_rules quotes st0 rules).2) := by
  refine ⟨?_, ?_, ?_, ?_⟩
  · intro hflag
    by_contra hnp
    rw [processRule_false_of_not_trigger hclose hnp st] at hflag
    simp at hflag
  · intro hchange
    by_contra hnp
    rw [processRule_false_of_not_trigger hclose hnp st] at hchange
    simp at hchange
  · intro hnp
    exact processRule_false_of_not_trigger hclose hnp st
  · intro hnp rules st0 hmem
    exact mem_tick_of_always_false
      (fun s => by rw [processRule_false_of_not_trigger hclose hnp s]) rules
      st0 hmem

/-- Witness for C4: a Sell (Take Profit) rule with target 20 does not
trigger at close 10 and survives a tick. -/
theorem C4_trigger_predicates_witness :
    processRule [("A", 10)] ⟨0, [("A", 1)], []⟩
        ⟨"A", RuleType.sellTakeProfit, 20, 1⟩
      = (⟨0, [("A", 1)], []⟩, false) ∧
    (⟨"A", RuleType.sellTakeProfit, 20, 1⟩ : Rule) ∈
      (check_auto_trade_rules [("A", 10)] ⟨0, [("A", 1)], []⟩
        [⟨"A", RuleType.sellTakeProfit, 20, 1⟩]).2 := by
  have h := C4_trigger_predicates [("A", 10)] ⟨0, [("A", 1)], []⟩
    ⟨"A", RuleType.sellTakeProfit, 20, 1⟩ 10 (by simp [closeOf])
  exact ⟨h.2.2.1 (by norm_num [triggerPred]),
    h.2.2.2 (by norm_num [triggerPred]) _ _ (List.mem_singleton.mpr rfl)⟩

/-- C5: after a tick, exactly the rules whose ledger operation succeeded are
removed, in a single batch after the full evaluation pass: the surviving
list equals the original list with the flagged positions dropped (hence an
order-preserving sublist of the original, so consumed rules are gone and the
rest keep insertion order), and position i's flag is precisely the success
of rule i's ledger operation at the state reached after rules 0..i-1. -/
theorem C5_batch_removal (quotes : QuoteBook) (st : TradingState)
    (rules : List Rule) :
    (check_auto_trade_rules quotes st rules).2
        = survivors rules (evalPass quotes st rules).2 ∧
    ((check_auto_trade_rules quotes st rules).2).Sublist rules ∧
    (∀ i (h : i < rules.length),
      ((evalPass quotes st rules).2).getD i false =
        (processRule quotes ((evalPass quotes st (rules.take i)).1)
          (rules.get ⟨i, h⟩)).2) := by
  refine ⟨tick_rules_eq_survivors quotes st rules, ?_, ?_⟩
  · rw [tick_rules_eq_survivors]
    exact survivors_sublist _ _
  · intro i h
    exact evalPass_flag quotes st rules i h

/-- Witness for C5 on a one-rule book whose rule triggers and sells out. -/
theorem C5_batch_removal_witness :
    (check_auto_trade_rules [("A", 5)] ⟨10, [("A", 1)], []⟩
        [⟨"A", RuleType.sellStopLoss, 5, 1⟩]).2
      = survivors [⟨"A", RuleType.sellStopLoss, 5, 1⟩]
          (evalPass [("A", 5)] ⟨10, [("A", 1)], []⟩
            [⟨"A", RuleType.sellStopLoss, 5, 1⟩]).2 ∧
    ((evalPass [("A", 5)] ⟨10, [("A", 1)], []⟩
        [⟨"A", RuleType.sellStopLoss, 5, 1⟩]).2).getD 0 false
      = (processRule [("A", 5)]
          ((evalPass [("A", 5)] ⟨10, [("A", 1)], []⟩ ([] : List Rule)).1)
          ⟨"A", RuleType.sellStopLoss, 5, 1⟩).2 :=
  ⟨(C5_batch_removal [("A", 5)] ⟨10, [("A", 1)], []⟩
      [⟨"A", RuleType.sellStopLoss, 5, 1⟩]).1,
   (C5_batch_removal [("A", 5)] ⟨10, [("A", 1)], []⟩
      [⟨"A", RuleType.sellStopLoss, 5, 1⟩]).2.2 0 (by decide)⟩

/-- C6: a rule is not consumed — and stays in the rule book for the next
tick — when its symbol has no usable close this tick, or when its predicate
holds but the ledger operation fails (insufficient funds for a Buy (Limit);
insufficient shares for the sell kinds): each such evaluation returns the
state unchanged with the flag false, and any rule whose flag is false is in
the post-tick rule list. -/
theorem C6_failures_keep_rule (quotes : QuoteBook) (st : TradingState)
    (r : Rule) :
    (closeOf quotes r.symbol = none →
        processRule quotes st r = (st, false) ∧
        ∀ (rules : List Rule) (st0 : TradingState), r ∈ rules →
          r ∈ (check_auto_trade_rules quotes st0 rules).2) ∧
    (∀ price, closeOf quotes r.symbol = some price →
        (r.ruleType = RuleType.buyLimit → price ≤ r.target_price →
          st.simulated_cash < price * (r.quantity : Rat) →
          processRule quotes st r = (st, false)) ∧
        (r.ruleType = RuleType.sellStopLoss → price ≤ r.target_price →
          lookupQty st.portfolio r.symbol < r.quantity →
          processRule quotes st r = (st, false)) ∧
        (r.ruleType = RuleType.sellTakeProfit → r.target_price ≤ price →
          lookupQty st.portfolio r.symbol < r.quantity →
          processRule quotes st r = (st, false))) ∧
    (∀ (rules : List Rule) (i : Nat) (h : i < rules.length),
        ((evalPass quotes st rules).2).getD i false = false →
        rules.get ⟨i, h⟩ ∈ (check_auto_trade_rules quotes st rules).2) := by
  refine ⟨?_, ?_, ?_⟩
  · intro hnone
    have hall : ∀ s : TradingState, processRule quotes s r = (s, false) := by
      intro s
      unfold processRule
      rw [hnone]
    exact ⟨hall st, fun rules st0 hmem =>
      mem_tick_of_always_false (fun s => by rw [hall s]) rules st0 hmem⟩
  · intro price hclose
    refine ⟨?_, ?_, ?_⟩
    · intro htype hpred hfail
      unfold processRule
      rw [hclose, htype]
      dsimp only
      rw [if_pos hpred, if_neg (not_le.mpr hfail)]
    · intro htype hpred hfail
      unfold processRule
      rw [hclose, htype]
      dsimp only
      exact if_neg (fun hc => absurd hc.2 (not_le.mpr hfail))
    · intro htype hpred hfail
      unfold processRule
      rw [hclose, htype]
      dsimp only
      exact if_neg (fun hc => absurd hc.2 (not_le.mpr hfail))
  · intro rules i h hflag
    rw [tick_rules_eq_survivors]
    exact mem_survivors_of_flag_false rules _ i h hflag

/-- Witness for C6: with no quote for A, the rule is skipped and survives;
with a quote of 5 but only 1 share held, a Sell (Stop Loss) for 2 shares
triggers, fails on shares, and is not consumed. -/
theorem C6_failures_keep_rule_witness :
    processRule [] ⟨0, [("A", 1)], []⟩ ⟨"A", RuleType.sellStopLoss, 5, 2⟩
      = (⟨0, [("A", 1)], []⟩, false) ∧
    (⟨"A", RuleType.sellStopLoss, 5, 2⟩ : Rule) ∈
      (check_auto_trade_rules [] ⟨0, [("A", 1)], []⟩
        [⟨"A", RuleType.sellStopLoss, 5, 2⟩]).2 ∧
    processRule [("A", 5)] ⟨0, [("A", 1)], []⟩
        ⟨"A", RuleType.sellStopLoss, 5, 2⟩
      = (⟨0, [("A", 1)], []⟩, false) := by
  have h1 := C6_failures_keep_rule [] ⟨0, [("A", 1)], []⟩
    ⟨"A", RuleType.sellStopLoss, 5, 2⟩
  have h2 := C6_failures_keep_rule [("A", 5)] ⟨0, [("A", 1)], []⟩
    ⟨"A", RuleType.sellStopLoss, 5, 2⟩
  refine ⟨(h1.1 rfl).1, (h1.1 rfl).2 _ _ (List.mem_singleton.mpr rfl), ?_⟩
  exact ((h2.2.1 5 (by simp [closeOf])).2.1 rfl (by norm_num)
    (by simp [lookupQty]))

/-- C7: tie-break — holdings {AAPL: 5}, two Sell (Stop Loss) rules on AAPL
for quantities 3 and 4 inserted in that order, and a close triggering both
predicates: after one tick the first rule is consumed, holdings become
{AAPL: 2}, cash grows by 3 times the close, and the second rule remains
active, having been evaluated against the reduced holdings and failed on
insufficient shares. -/
theorem C7_tie_break (cash : Rat) (w : List Symbol) (p t1 t2 : Rat)
    (h1 : p ≤ t1) (h2 : p ≤ t2) :
    check_auto_trade_rules [("AAPL", p)] ⟨cash, [("AAPL", 5)], w⟩
        [⟨"AAPL", RuleType.sellStopLoss, t1, 3⟩,
         ⟨"AAPL", RuleType.sellStopLoss, t2, 4⟩]
      = (⟨cash + p * 3, [("AAPL", 2)], w⟩,
         [⟨"AAPL", RuleType.sellStopLoss, t2, 4⟩]) := by
  have hstep1 : processRule [("AAPL", p)] ⟨cash, [("AAPL", 5)], w⟩
      ⟨"AAPL", RuleType.sellStopLoss, t1, 3⟩
      = (⟨cash + p * 3, [("AAPL", 2)], w⟩, true) := by
    simp only [processRule, closeOf, autoSell, lookupQty, setQty, delSym]
    norm_num [h1]
  have hstep2 : processRule [("AAPL", p)] ⟨cash + p * 3, [("AAPL", 2)], w⟩
      ⟨"AAPL", RuleType.sellStopLoss, t2, 4⟩
      = (⟨cash + p * 3, [("AAPL", 2)], w⟩, false) := by
    simp only [processRule, closeOf, lookupQty]
    norm_num
  have hpass : evalPass [("AAPL", p)] ⟨cash, [("AAPL", 5)], w⟩
      [⟨"AAPL", RuleType.sellStopLoss, t1, 3⟩,
       ⟨"AAPL", RuleType.sellStopLoss, t2, 4⟩]
      = (⟨cash + p * 3, [("AAPL", 2)], w⟩, [true, false]) := by
    simp only [evalPass, hstep1, hstep2]
  simp only [check_auto_trade_rules, hpass]
  rfl

/-- Witness for C7 at cash 0 and close 10 triggering both targets. -/
theorem C7_tie_break_witness :
    check_auto_trade_rules [("AAPL", 10)] ⟨0, [("AAPL", 5)], []⟩
        [⟨"AAPL", RuleType.sellStopLoss, 10, 3⟩,
         ⟨"AAPL", RuleType.sellStopLoss, 12, 4⟩]
      = (⟨0 + 10 * 3, [("AAPL", 2)], []⟩,
         [⟨"AAPL", RuleType.sellStopLoss, 12, 4⟩]) :=
  C7_tie_break 0 [] 10 10 12 (by norm_num) (by norm_num)

/-- C1 (refuted by the code): the spec demands that a buy or sell with no
available close fail without mutating cash or holdings, never transacting at
an assumed price of 0.  The manual sell path instead sells at price 0.0 on
an empty fetch (the only AAPL share is removed for zero proceeds), and the
manual buy path buys at price 0.0 on a NaN close; only the rule-engine path
skips. -/
theorem C1_price_zero_trades :
    sell_stock ⟨100, [("AAPL", 1)], ["AAPL"]⟩ "AAPL" 1 FetchResult.empty
      = (⟨100, [], ["AAPL"]⟩, SellOutcome.sold 0) ∧
    execute_buy ⟨100, [], []⟩ "AAPL" 2 FetchResult.nanClose
      = (⟨100, [("AAPL", 2)], ["AAPL"]⟩, BuyOutcome.bought 0) ∧
    (∀ st : TradingState,
      processRule [] st ⟨"AAPL", RuleType.sellStopLoss, 5, 1⟩ = (st, false)) := by
  have hs : ("AAPL" : String) ≠ "" := by decide
  refine ⟨?_, ?_, fun st => rfl⟩
  · simp only [sell_stock, sellPriceOf, hasSym, lookupQty, setQty, delSym]
    norm_num [hs]
  · simp only [execute_buy, execute_buy_at, lookupQty, setQty]
    norm_num [hs]

/-- C9 counterexample: with AAPL held and on the watchlist, the single
removal request leaves the state unchanged but is silently ignored — the
handler emits no user-visible refusal (outcome `silentNoOp`, not
`refusedWithMessage`), contradicting the claim that the rejection is
visible. -/
theorem C9_counterexample :
    remove_from_watchlist ⟨100, [("AAPL", 1)], ["AAPL", "GOOG"]⟩ "AAPL"
      = (⟨100, [("AAPL", 1)], ["AAPL", "GOOG"]⟩, RemoveOutcome.silentNoOp) := by
  simp [remove_from_watchlist, hasSym]

/-- C9 (amended): for a symbol currently held, a single watchlist removal
request leaves the state unchanged — but silently, with no refusal message
(the UI instead disables the remove button for held rows) — and a
clear-watchlist request keeps that symbol on the watchlist; a watched symbol
not held is removed on request. -/
theorem C9_amended (st : TradingState) (s : Symbol) :
    (hasSym st.portfolio s = true →
        remove_from_watchlist st s = (st, RemoveOutcome.silentNoOp)) ∧
    (hasSym st.portfolio s = true → s ∈ st.watchlist_symbols →
        s ∈ (clear_watchlist_handler st).watchlist_symbols) ∧
    (hasSym st.portfolio s = false → s ∈ st.watchlist_symbols →
        remove_from_watchlist st s
          = ({ st with watchlist_symbols := removeSym st.watchlist_symbols s },
             RemoveOutcome.removed)) := by
  refine ⟨?_, ?_, ?_⟩
  · intro hheld
    unfold remove_from_watchlist
    rw [if_neg]
    rintro ⟨-, hfalse⟩
    rw [hheld] at hfalse
    exact Bool.noConfusion hfalse
  · intro hheld hmem
    unfold clear_watchlist_handler
    refine mem_foldl_removeSym _ _ hmem ?_
    intro x hx hxs
    subst hxs
    have := List.of_mem_filter hx
    rw [hheld] at this
    simp at this
  · intro hfree hmem
    unfold remove_from_watchlist
    rw [if_pos ⟨hmem, hfree⟩]

/-- Witness for C9 (amended): AAPL is held, stays, silently; GOOG is not
held and is removed on request. -/
theorem C9_amended_witness :
    remove_from_watchlist ⟨100, [("AAPL", 1)], ["AAPL", "GOOG"]⟩ "AAPL"
      = (⟨100, [("AAPL", 1)], ["AAPL", "GOOG"]⟩, RemoveOutcome.silentNoOp) ∧
    "AAPL" ∈ (clear_watchlist_handler
      ⟨100, [("AAPL", 1)], ["AAPL", "GOOG"]⟩).watchlist_symbols ∧
    remove_from_watchlist ⟨100, [("AAPL", 1)], ["AAPL", "GOOG"]⟩ "GOOG"
      = (⟨100, [("AAPL", 1)], ["AAPL"]⟩, RemoveOutcome.removed) := by
  have hA := C9_amended ⟨100, [("AAPL", 1)], ["AAPL", "GOOG"]⟩ "AAPL"
  have hG := C9_amended ⟨100, [("AAPL", 1)], ["AAPL", "GOOG"]⟩ "GOOG"
  exact ⟨hA.1 (by decide), hA.2.1 (by decide) (by decide),
    (hG.2.2 (by decide) (by decide)).trans (by simp [removeSym])⟩

/-- C10: a rule-triggered trade mutates only cash and holdings — every rule
evaluation and every whole tick leaves the watchlist exactly as it was, so
an automatic Buy (Limit) execution for a symbol not on the watchlist leaves
it held but unwatched — whereas a successful manual buy of a symbol not on
the watchlist appends it to the watchlist. -/
theorem C10_watchlist_frame (quotes : QuoteBook) (st : TradingState)
    (r : Rule) (rules : List Rule) (s : Symbol) (q : Nat) (p : Rat) :
    ((processRule quotes st r).1.watchlist_symbols = st.watchlist_symbols) ∧
    ((check_auto_trade_rules quotes st rules).1.watchlist_symbols
        = st.watchlist_symbols) ∧
    (∀ price, closeOf quotes r.symbol = some price →
        r.ruleType = RuleType.buyLimit → price ≤ r.target_price →
        price * (r.quantity : Rat) ≤ st.simulated_cash → 0 < r.quantity →
        r.symbol ∉ st.watchlist_symbols →
        0 < lookupQty (processRule quotes st r).1.portfolio r.symbol ∧
          r.symbol ∉ (processRule quotes st r).1.watchlist_symbols) ∧
    (s ≠ "" → s ∉ st.watchlist_symbols →
        p * (q : Rat) ≤ st.simulated_cash →
        (execute_buy st s q (.close p)).1.watchlist_symbols
          = st.watchlist_symbols ++ [s]) := by
  refine ⟨watchlist_processRule quotes st r, watchlist_evalPass quotes rules st,
    ?_, ?_⟩
  · intro price hclose htype hpred hfunds hq hnw
    have hrun : processRule quotes st r =
        ({ st with
            simulated_cash := st.simulated_cash - price * (r.quantity : Rat),
            portfolio := setQty st.portfolio r.symbol
              (lookupQty st.portfolio r.symbol + r.quantity) }, true) := by
      unfold processRule
      rw [hclose, htype]
      dsimp only
      rw [if_pos hpred, if_pos hfunds]
    rw [hrun]
    exact ⟨by
        rw [lookupQty_setQty_self]
        exact Nat.lt_of_lt_of_le hq (Nat.le_add_left _ _), hnw⟩
  · intro hs hnw hfunds
    simp [execute_buy, execute_buy_at, hs, hfunds, hnw]

/-- Witness for C10: an automatic Buy (Limit) on GOOG leaves the watchlist
empty while GOOG becomes held; a manual buy of GOOG appends it. -/
theorem C10_watchlist_frame_witness :
    (0 < lookupQty (processRule [("GOOG", 8)] ⟨100, [], []⟩
        ⟨"GOOG", RuleType.buyLimit, 9, 2⟩).1.portfolio "GOOG" ∧
      "GOOG" ∉ (processRule [("GOOG", 8)] ⟨100, [], []⟩
        ⟨"GOOG", RuleType.buyLimit, 9, 2⟩).1.watchlist_symbols) ∧
    (execute_buy ⟨100, [], []⟩ "GOOG" 2 (.close 8)).1.watchlist_symbols
      = ["GOOG"] := by
  have h := C10_watchlist_frame [("GOOG", 8)] ⟨100, [], []⟩
    ⟨"GOOG", RuleType.buyLimit, 9, 2⟩ [] "GOOG" 2 8
  exact ⟨h.2.2.1 8 (by simp [closeOf]) rfl (by norm_num) (by norm_num)
      (by decide) (by simp),
    (h.2.2.2 (by decide) (by simp) (by norm_num)).trans (by simp)⟩

end WSBGPT
